import Mathlib

/-!
Verification of the mailgun/errors Go package: a shallow embedding of the
error-chain data model (wrappedError, withStack, withFields), its
constructors (Wrap, Wrapf, WithStack, WithFields.Wrap/Wrapf/WithStack),
chain traversal (Unwrap, As, Last), field aggregation (Fields, ToMap,
ToLogrus) and the fmt.Formatter implementations, together with theorems
checking the natural-language specification against this embedding.

Go `error` interface values are embedded as `Option GoError` (nil = none).
Go maps `map[string]interface{}` are embedded as association lists with
unique keys (`FieldMap`); stack snapshots from the `callstack` package
(whose source is external to this repository) are modelled from the spec
as lists of frames.
-/

/-- A dynamic value stored in a `map[string]interface{}` field map. -/
inductive GoValue where
  | vStr (s : String)
  | vInt (n : Int)
  deriving DecidableEq, Repr

/-- Renders a `GoValue` the way fmt's %v / %+v verbs render it. -/
def GoValue.render : GoValue → String
  | .vStr s => s
  | .vInt n => toString n

/-- A Go field map `map[string]interface{}`: association list, unique keys. -/
abbrev FieldMap := List (String × GoValue)

/-- Map lookup, mirroring Go `m[key]` (comma-ok form). -/
def lookupF (k : String) : FieldMap → Option GoValue
  | [] => none
  | (k', v) :: rest => if k' = k then some v else lookupF k rest

/-- Map store, mirroring Go `m[key] = value`: replaces an existing binding
for the key or appends a new one. -/
def insertF (m : FieldMap) (k : String) (v : GoValue) : FieldMap :=
  match m with
  | [] => [(k, v)]
  | (k', v') :: rest => if k' = k then (k, v) :: rest else (k', v') :: insertF rest k v

/-- `for key, value := range src { dst[key] = value }`: folds every binding
of `src` into `dst`. -/
def mergeF (dst src : FieldMap) : FieldMap :=
  src.foldl (fun acc kv => insertF acc kv.1 kv.2) dst

/-- Modelled from the spec: one frame of a `callstack` stack snapshot —
the `callstack` package is part of this repository but its source is not
included here; per the spec a frame records function name, file path and
line number. -/
structure Frame where
  func : String
  file : String
  lineNo : Int
  deriving DecidableEq, Repr

/-- Modelled from the spec: a `callstack.CallStack` / `callstack.StackTrace`
snapshot — an ordered sequence of frames, the first frame being the
annotation call site. -/
abbrev CallStack := List Frame

/-- Modelled from the spec: `callstack.GetLastFrame(trace)` returns the
frame considered the origin of the error: the first captured frame
(the annotation call site). Degenerate empty trace yields a zero frame. -/
def GetLastFrame (trace : CallStack) : Frame :=
  match trace with
  | [] => ⟨"", "", 0⟩
  | f :: _ => f

/-- The closed world of error values occurring in this repository and its
tests: `errors.New` leaves, `fmt.Errorf("...: %w", err)` wrappers, the
package's own `*wrappedError` (wrap.go), `*withStack` (stack.go) and
`*withFields` (fields.go) nodes, and the tests' `*ErrHasFields` leaf which
carries a (possibly nil) field map. -/
inductive GoError where
  | errorString (s : String)
  | fmtWrapped (pre : String) (cause : GoError)
  | wrappedError (msg : String) (cause : GoError) (stack : CallStack)
  | withStack (cause : GoError) (stack : CallStack)
  | withFields (fields : FieldMap) (msg : String) (cause : GoError) (stack : CallStack)
  | errHasFields (msg : String) (fields : Option FieldMap)
  deriving DecidableEq, Repr

namespace GoError

/-- fmt's %T verb: the concrete dynamic type name of an error value. -/
def typeName : GoError → String
  | errorString _ => "*errors.errorString"
  | fmtWrapped _ _ => "*fmt.wrapError"
  | wrappedError _ _ _ => "*errors.wrappedError"
  | withStack _ _ => "*errors.withStack"
  | withFields _ _ _ _ => "*errors.withFields"
  | errHasFields _ _ => "*errors_test.ErrHasFields"

/-- fmt's %T applied to a possibly-nil error interface value. -/
def typeNameOpt : Option GoError → String
  | none => "<nil>"
  | some e => typeName e

/-- `errors.Unwrap` / the `Unwrap() error` methods: the immediate cause,
or nil for leaf errors. -/
def unwrap : GoError → Option GoError
  | errorString _ => none
  | errHasFields _ _ => none
  | fmtWrapped _ c => some c
  | wrappedError _ c _ => some c
  | withStack c _ => some c
  | withFields _ _ c _ => some c

/-- Whether the concrete type has a `StackTrace()` method, i.e. satisfies
`callstack.HasStackTrace`: `*wrappedError` and `*withFields` declare it,
`*withStack` embeds `*callstack.CallStack` which provides it. -/
def hasStackTraceMethod : GoError → Bool
  | wrappedError _ _ _ => true
  | withStack _ _ => true
  | withFields _ _ _ _ => true
  | _ => false

/-- Whether the concrete type has a `Fields() map[string]interface{}`
method, i.e. satisfies `HasFields`: `*withFields`, `*withStack`
(stack.go declares one) and the tests' `*ErrHasFields`. -/
def hasFieldsMethod : GoError → Bool
  | withFields _ _ _ _ => true
  | withStack _ _ => true
  | errHasFields _ _ => true
  | _ => false

/-- The `Error() string` method of every error value in the closed world:
`wrappedError.Error` and `withFields.Error` return the cause's text when
their message is empty, else `msg + ": " + cause text`; `withStack`
embeds the cause's `Error`; `fmt.Errorf` pre-rendered its format string. -/
def errorText : GoError → String
  | errorString s => s
  | fmtWrapped pre c => pre ++ errorText c
  | wrappedError msg c _ => if msg = "" then errorText c else msg ++ ": " ++ errorText c
  | withStack c _ => errorText c
  | withFields _ msg c _ => if msg = "" then errorText c else msg ++ ": " ++ errorText c
  | errHasFields m _ => m

/-- The `StackTrace()` methods: `wrappedError.StackTrace` and
`withFields.StackTrace` return the wrapped error's trace when the
immediate cause's concrete type satisfies `callstack.HasStackTrace`
(a direct type assertion), otherwise the snapshot captured at this node;
`withStack` always returns the snapshot of its embedded CallStack.
Leaf types have no such method; the value for them is never consulted. -/
def stackTraceOf : GoError → CallStack
  | wrappedError _ c st => if hasStackTraceMethod c then stackTraceOf c else st
  | withFields _ _ c st => if hasStackTraceMethod c then stackTraceOf c else st
  | withStack _ st => st
  | _ => []

/-- The error chain: the error itself followed by repeated `Unwrap`. -/
def chainE : GoError → List GoError
  | errorString s => [errorString s]
  | errHasFields m f => [errHasFields m f]
  | fmtWrapped p c => fmtWrapped p c :: chainE c
  | wrappedError m c st => wrappedError m c st :: chainE c
  | withStack c st => withStack c st :: chainE c
  | withFields f m c st => withFields f m c st :: chainE c

/-- The innermost leaf of a chain: single-step unwrap repeated to
exhaustion. -/
def leafOf : GoError → GoError
  | errorString s => errorString s
  | errHasFields m f => errHasFields m f
  | fmtWrapped _ c => leafOf c
  | wrappedError _ c _ => leafOf c
  | withStack c _ => leafOf c
  | withFields _ _ c _ => leafOf c

end GoError

/-- The chain of a possibly-nil error value. -/
def chainO : Option GoError → List GoError
  | none => []
  | some e => e.chainE

/-- fmt.Sprintf, modelling the %s, %d and %v directives (and %%) used in
this repository; other characters are copied verbatim. -/
def sprintfAux : List Char → List GoValue → List Char
  | [], _ => []
  | ['%'], _ => ['%']
  | '%' :: '%' :: rest, args => '%' :: sprintfAux rest args
  | '%' :: c :: rest, args =>
    if c = 's' ∨ c = 'd' ∨ c = 'v' then
      match args with
      | [] => '%' :: c :: sprintfAux rest []
      | a :: args' => a.render.toList ++ sprintfAux rest args'
    else '%' :: c :: sprintfAux rest args
  | c :: rest, args => c :: sprintfAux rest args

/-- fmt.Sprintf over the directives used by this repository. -/
def sprintf (format : String) (args : List GoValue) : String :=
  ⟨sprintfAux format.toList args⟩

/-- wrap.go `Wrap`: annotates err with a stack trace captured at the call
point (`st` is the ambient capture) and the supplied message; returns nil
when err is nil. -/
def Wrap (st : CallStack) (err : Option GoError) (msg : String) : Option GoError :=
  match err with
  | none => none
  | some e => some (.wrappedError msg e st)

/-- wrap.go `Wrapf`: identical to Wrap but formats the message first. -/
def Wrapf (st : CallStack) (err : Option GoError) (format : String)
    (args : List GoValue) : Option GoError :=
  match err with
  | none => none
  | some e => some (.wrappedError (sprintf format args) e st)

/-- stack.go `WithStack`: annotates err with a stack trace only; returns
nil when err is nil. -/
def WithStack (st : CallStack) (err : Option GoError) : Option GoError :=
  match err with
  | none => none
  | some e => some (.withStack e st)

/-- fields.go `WithFields`: a field map used as a constructor receiver. -/
abbrev WithFields := FieldMap

/-- fields.go `WithFields.Wrap`: builds a `*withFields` node carrying the
receiver's field map (stored as-is, not copied), the message, the cause
and a stack snapshot; returns nil when err is nil. -/
def WithFields.Wrap (f : WithFields) (st : CallStack) (err : Option GoError)
    (msg : String) : Option GoError :=
  match err with
  | none => none
  | some e => some (.withFields f msg e st)

/-- fields.go `WithFields.Wrapf`: as Wrap, with a formatted message. -/
def WithFields.Wrapf (f : WithFields) (st : CallStack) (err : Option GoError)
    (format : String) (args : List GoValue) : Option GoError :=
  match err with
  | none => none
  | some e => some (.withFields f (sprintf format args) e st)

/-- fields.go `WithFields.WithStack`: a `*withFields` node with no
message; returns nil when err is nil. -/
def WithFields.WithStack (f : WithFields) (st : CallStack)
    (err : Option GoError) : Option GoError :=
  match err with
  | none => none
  | some e => some (.withFields f "" e st)

namespace legacy

/-- The superseded wrap.go `Wrap` (deprecated in favour of fmt.Errorf):
`fmt.Errorf("%s: %w", msg, err)`; returns nil when err is nil. -/
def Wrap (err : Option GoError) (msg : String) : Option GoError :=
  match err with
  | none => none
  | some e => some (.fmtWrapped (msg ++ ": ") e)

/-- The superseded wrap.go `Wrapf`: formats the message, then wraps as
`fmt.Errorf("%s: %w", ...)`; returns nil when err is nil. -/
def Wrapf (err : Option GoError) (format : String) (args : List GoValue) :
    Option GoError :=
  match err with
  | none => none
  | some e => some (.fmtWrapped (sprintf format args ++ ": ") e)

end legacy

/-- Last binding for a key in an association list (Go maps ranged over in
a merge apply later bindings last, so the last binding wins). -/
def lookupLastF (k : String) : FieldMap → Option GoValue
  | [] => none
  | (k', v) :: rest =>
    match lookupLastF k rest with
    | some w => some w
    | none => if k' = k then some v else none

mutual

/-- The `Fields() map[string]interface{}` methods.
`withFields.Fields` (fields.go): copies its own field map into a fresh
result, then — via `errors.As(c.wrapped, &f)` — locates the first
`HasFields` node in the cause chain and merges that node's `Fields()`
over the result (so downstream bindings override on key collision);
a nil child map leaves the result as the own-fields copy.
`withStack.Fields` (stack.go): a direct type assertion on the immediate
cause only — returns the cause's `Fields()` when the cause's concrete
type has the method, else nil; no fields of its own, no copy.
`ErrHasFields.Fields` (test type): returns its stored, possibly nil map.
Other types lack the method; their value here is never consulted. -/
def goFieldsOf : GoError → Option FieldMap
  | .withFields f _ c _ => some (mergeF f ((chainFields c).getD []))
  | .withStack c _ => if c.hasFieldsMethod then goFieldsOf c else none
  | .errHasFields _ f => f
  | _ => none

/-- `var f HasFields; errors.As(err, &f)` followed by `f.Fields()`: walks
the chain from `err` for the first node whose concrete type has a
`Fields()` method and returns that node's `Fields()` result (which may
itself be nil); none when no node in the chain has the method. (No type
in this repository defines a custom `As(any) bool` method, so stdlib As
reduces to the type-assignability walk.) -/
def chainFields : GoError → Option FieldMap
  | .withFields f _ c _ => some (mergeF f ((chainFields c).getD []))
  | .withStack c _ => if c.hasFieldsMethod then goFieldsOf c else none
  | .errHasFields _ f => f
  | .fmtWrapped _ c => chainFields c
  | .wrappedError _ c _ => chainFields c
  | .errorString _ => none

end

/-- The target-slot element types used with `As`/`Last` in this
repository: the `callstack.HasStackTrace` interface, the `HasFields`
interface, the `error` interface itself, or a concrete type (with a flag
recording whether that concrete type implements `error`). -/
inductive ElemTy where
  | ifaceHasStackTrace
  | ifaceHasFields
  | ifaceError
  | concreteTy (n : String) (implementsError : Bool)
  deriving DecidableEq, Repr

/-- reflect `Kind() == Interface` of the target's element type. -/
def elemIsInterface : ElemTy → Bool
  | .concreteTy _ _ => false
  | _ => true

/-- reflect `Implements(errorType)` of the target's element type. -/
def elemImplementsError : ElemTy → Bool
  | .ifaceError => true
  | .concreteTy _ i => i
  | _ => false

/-- reflect `TypeOf(err).AssignableTo(targetType)`: whether a concrete
error value is assignable to the target element type. -/
def assignable (e : GoError) : ElemTy → Bool
  | .ifaceHasStackTrace => e.hasStackTraceMethod
  | .ifaceHasFields => e.hasFieldsMethod
  | .ifaceError => true
  | .concreteTy n _ => e.typeName == n

/-- The reflection view of the `target any` argument of `Last`: a nil
interface value is `none`; otherwise the value's kind (pointer or not),
pointer nil-ness and element type. -/
structure TargetVal where
  kindIsPtr : Bool
  isNilPtr : Bool
  elem : ElemTy
  deriving DecidableEq, Repr

/-- The matching loop of errors.go `Last`: walk the whole chain,
remembering the most recently seen assignable node. (No type in this
repository or its tests defines an `As(any) bool` method, so that branch
of the loop never fires in this closed world.) -/
def lastFound (err : Option GoError) (t : ElemTy) : Option GoError :=
  (chainO err).foldl (fun found e => if assignable e t then some e else found) none

/-- errors.go `Last`: validates the target (panicking — modelled as
`Except.error` with the panic message — when it is nil, not a non-nil
pointer, or its element type is neither an interface nor an implementor
of `error`), then walks the entire chain keeping the last assignable
node. `.ok (some e)` models `*target = e; return true`; `.ok none`
models `return false` with the target left untouched. -/
def Last (err : Option GoError) (target : Option TargetVal) :
    Except String (Option GoError) :=
  match target with
  | none => .error "errors: target cannot be nil"
  | some t =>
    if ¬ t.kindIsPtr ∨ t.isNilPtr then
      .error "errors: target must be a non-nil pointer"
    else if ¬ (elemIsInterface t.elem = true) ∧ ¬ (elemImplementsError t.elem = true) then
      .error "errors: *target must be interface or implement error"
    else
      .ok (lastFound err t.elem)

/-- errors.go `As` (re-export of stdlib errors.As): first-match search —
the first node of the chain assignable to the target element type
(`some e` models `*target = e; return true`). -/
def As (err : Option GoError) (t : ElemTy) : Option GoError :=
  (chainO err).find? (fun e => assignable e t)

/-- fields.go `ToMap`: starts from `excValue` (the top-level Error()
text) and `excType` (%T of the single-step `Unwrap(err)`); if `Last`
finds a stack-bearing node, adds `excFuncName`/`excLineNum`/`excFileName`
from that node's origin frame; finally merges the field set found by
`errors.As(err, &f)` (if any) into the map. -/
def ToMap (err : GoError) : FieldMap :=
  let result : FieldMap :=
    [("excValue", .vStr err.errorText),
     ("excType", .vStr (GoError.typeNameOpt err.unwrap))]
  let result :=
    match lastFound (some err) .ifaceHasStackTrace with
    | none => result
    | some n =>
      let caller := GetLastFrame n.stackTraceOf
      insertF (insertF (insertF result "excFuncName" (.vStr caller.func))
        "excLineNum" (.vInt caller.lineNo)) "excFileName" (.vStr caller.file)
  mergeF result ((chainFields err).getD [])

/-- fields.go `ToLogrus`: identical construction to `ToMap`, projected
into a logrus.Fields record (same underlying map type). -/
def ToLogrus (err : GoError) : FieldMap :=
  let result : FieldMap :=
    [("excValue", .vStr err.errorText),
     ("excType", .vStr (GoError.typeNameOpt err.unwrap))]
  let result :=
    match lastFound (some err) .ifaceHasStackTrace with
    | none => result
    | some n =>
      let caller := GetLastFrame n.stackTraceOf
      insertF (insertF (insertF result "excFuncName" (.vStr caller.func))
        "excLineNum" (.vInt caller.lineNo)) "excFileName" (.vStr caller.file)
  mergeF result ((chainFields err).getD [])

/-- The three fmt renderings the claims reason about: %s (short),
%v (value) and %+v (verbose). -/
inductive Verb where
  | short
  | value
  | verbosePlus
  deriving DecidableEq, Repr

/-- Modelled from the spec: the verbose frame listing produced by
`callstack.CallStack.Format` on %+v — the `callstack` package source is
external to this repository; per the spec each frame renders its
function name, file path and line number. -/
def stackVerbose (st : CallStack) : String :=
  String.join (st.map fun fr =>
    "\n" ++ fr.func ++ "\n\t" ++ fr.file ++ ":" ++ toString fr.lineNo)

/-- fields.go `withFields.FormatFields`: the node's own fields rendered
as a comma-separated `key=value` listing. -/
def formatFields (f : FieldMap) : String :=
  String.intercalate ", " (f.map fun kv => kv.1 ++ "=" ++ kv.2.render)

/-- The fmt.Formatter implementations.
`wrappedError.Format` (wrap.go) writes `e.Error()` for every verb — it
never recurses into the cause with %+v and never prints its stack.
`withStack.Format` (stack.go) on %+v prints the cause's %+v rendering
followed by its own stack frame listing; %s/%v print `Error()`.
`withFields.Format` (fields.go) on %+v prints `msg ++ ": "` (when the
message is non-empty) then the cause's %+v rendering then the own-fields
listing in parentheses; %s/%v print `Error()`.
Types without a Format method are rendered by fmt via `Error()`. -/
def formatGo : Verb → GoError → String
  | _, .errorString s => GoError.errorText (.errorString s)
  | _, .fmtWrapped p c => GoError.errorText (.fmtWrapped p c)
  | _, .errHasFields m f => GoError.errorText (.errHasFields m f)
  | _, .wrappedError m c st => GoError.errorText (.wrappedError m c st)
  | .verbosePlus, .withStack c st => formatGo .verbosePlus c ++ stackVerbose st
  | _, .withStack c st => GoError.errorText (.withStack c st)
  | .verbosePlus, .withFields f m c _ =>
    if m = "" then
      formatGo .verbosePlus c ++ " (" ++ formatFields f ++ ")"
    else
      m ++ ": " ++ formatGo .verbosePlus c ++ " (" ++ formatFields f ++ ")"
  | _, .withFields f m c st => GoError.errorText (.withFields f m c st)

/-- First-some choice on options (used to relate the Last loop to a
reversed first-match search). -/
def orO {α : Type} (a b : Option α) : Option α :=
  match a with
  | some x => some x
  | none => b

/-- Character-list prefix test (for substring reasoning about renderings). -/
def listPrefB : List Char → List Char → Bool
  | [], _ => true
  | _ :: _, [] => false
  | a :: as, b :: bs => a == b && listPrefB as bs

/-- Does `needle` occur as a contiguous run inside `hay` (char lists)? -/
def containsAux (needle : List Char) : List Char → Bool
  | [] => listPrefB needle []
  | c :: rest => listPrefB needle (c :: rest) || containsAux needle rest

/-- Does the string `needle` occur inside the string `hay`? -/
def containsSubB (needle hay : String) : Bool :=
  containsAux needle.toList hay.toList

/-! Concrete errors used by the claims' scenarios. -/

/-- A stack snapshot captured at one annotation site. -/
def stackA : CallStack := [⟨"fA", "a.go", 10⟩]

/-- A stack snapshot captured at a different annotation site. -/
def stackB : CallStack := [⟨"fB", "b.go", 20⟩]

/-- Scenario chain for traversal: position 4, the leaf. -/
def scenarioLeaf : GoError := .errorString "bottom"

/-- Scenario chain: position 3 from the head, stack-bearing. -/
def scenarioPos3 : GoError := .withStack scenarioLeaf stackB

/-- Scenario chain: position 2, a plain fmt.Errorf wrapper, no stack. -/
def scenarioPos2 : GoError := .fmtWrapped "mid: " scenarioPos3

/-- Scenario chain: position 1 (head), stack-bearing. -/
def scenarioPos1 : GoError := .wrappedError "top" scenarioPos2 stackA

/-- A depth-2 wrapped chain for the ToMap excType check. -/
def c3chain : GoError :=
  .wrappedError "top" (.wrappedError "mid" (.errorString "bottom") stackA) stackB

/-- Inner field-bearing node carrying {a: 1}, closer to the cause. -/
def fieldsInner : GoError :=
  .withFields [("a", .vInt 1)] "m1" (.errorString "e") stackA

/-- Outer field-bearing node carrying {a: 2}, wrapping `fieldsInner`. -/
def fieldsOuter : GoError :=
  .withFields [("a", .vInt 2)] "m2" fieldsInner stackB

/-- The round-trip error of the formatting scenario:
`Wrap(WithStack(leaf), "ctx")` with a one-frame snapshot at the
WithStack call site. -/
def c6frame : Frame := ⟨"main.run", "stack_test.go", 17⟩

/-- `Wrap(WithStack(errors.New("boom")), "ctx")`. -/
def c6err : GoError :=
  .wrappedError "ctx" (.withStack (.errorString "boom") [c6frame]) stackA

/-! Heap model for aliasing claims: Go maps are reference values, so to
observe whether a constructor copies the caller's map we track field maps
in an explicit store and let nodes hold references into it. -/

/-- The heap of live `map[string]interface{}` values. -/
abbrev Store := List FieldMap

/-- Dereference a map reference. -/
def readRef (σ : Store) (r : Nat) : FieldMap := σ.getD r []

/-- Mutate the map behind a reference (a caller writing `m[k] = v`). -/
def updateRef (σ : Store) (r : Nat) (m : FieldMap) : Store := σ.set r m

/-- A field-annotated error chain in the heap model: `rnode r msg cause`
is a `*withFields` node whose `fields` member is the map reference `r` —
exactly what `WithFields.Wrap` stores, since it assigns `fields: f`
without copying the caller's map. -/
inductive RErr where
  | rleaf (msg : String)
  | rnode (fieldsRef : Nat) (msg : String) (cause : RErr)
  deriving DecidableEq, Repr

/-- `withFields.Fields` in the heap model: reads the node's own map
through its stored reference, copies it into a fresh result value and
merges the cause chain's fields over it (every node of an `RErr` chain
except the leaf bears fields, so the `errors.As` search finds the
immediate cause). The leaf has no `Fields` method. -/
def rFieldsVal (σ : Store) : RErr → Option FieldMap
  | .rleaf _ => none
  | .rnode r _ c => some (mergeF (readRef σ r) ((rFieldsVal σ c).getD []))

/-- `Fields()` as observed by the caller: the computed result is placed
in a freshly allocated map (a new reference at the end of the store),
never the backing storage of any node. -/
def rFieldsAlloc (σ : Store) (e : RErr) : Store × Option Nat :=
  match rFieldsVal σ e with
  | none => (σ, none)
  | some m => (σ ++ [m], some σ.length)

/-- All map references reachable from the chain lie below `n`. -/
def refsBelowB : RErr → Nat → Bool
  | .rleaf _, _ => true
  | .rnode r _ c, n => decide (r < n) && refsBelowB c n

/-- The caller's map in the heap counterexample: built as {a: 1}. -/
def sigma0 : Store := [[("a", .vInt 1)]]

/-- A `*withFields` node built from the caller's map (reference 0). -/
def nodeAlias : RErr := .rnode 0 "m" (.rleaf "x")

/-- C1: every construction operation maps a nil cause to nil: `Wrap`,
`Wrapf`, `WithStack`, `WithFields.Wrap`, `WithFields.Wrapf`,
`WithFields.WithStack` (and the superseded wrap.go variants) all return
nil when given a nil error, so call sites may annotate unconditionally. -/
theorem c1_nil_cause_returns_nil (st : CallStack) (msg format : String)
    (args : List GoValue) (f : WithFields) :
    Wrap st none msg = none ∧
    Wrapf st none format args = none ∧
    WithStack st none = none ∧
    WithFields.Wrap f st none msg = none ∧
    WithFields.Wrapf f st none format args = none ∧
    WithFields.WithStack f st none = none ∧
    legacy.Wrap none msg = none ∧
    legacy.Wrapf none format args = none :=
  ⟨rfl, rfl, rfl, rfl, rfl, rfl, rfl, rfl⟩

/-- C5: for every non-nil cause `c`, `Wrap(c, m)` succeeds and its
`Error()` text is `m ++ ": " ++ c.Error()` when `m` is non-empty and
exactly `c.Error()` when `m` is empty; the `withFields.Error` method
follows the same rule. -/
theorem c5_wrap_error_text (st : CallStack) (c : GoError) (m : String)
    (f : WithFields) :
    Wrap st (some c) m = some (.wrappedError m c st) ∧
    GoError.errorText (.wrappedError m c st) =
      (if m = "" then c.errorText else m ++ ": " ++ c.errorText) ∧
    GoError.errorText (.withFields f m c st) =
      (if m = "" then c.errorText else m ++ ": " ++ c.errorText) :=
  ⟨rfl, rfl, rfl⟩

/-- Lookup after a Go map store: the stored key reads back the new value,
other keys are unaffected. -/
theorem lookupF_insertF (m : FieldMap) (k k' : String) (v : GoValue) :
    lookupF k (insertF m k' v) = if k' = k then some v else lookupF k m := by
  induction m with
  | nil => simp [insertF, lookupF]
  | cons p rest ih =>
    obtain ⟨pk, pv⟩ := p
    by_cases h : pk = k'
    · subst h
      by_cases hk : pk = k <;> simp [insertF, lookupF, hk]
    · by_cases hk : pk = k
      · subst hk
        have h2 : ¬ k' = pk := fun hh => h hh.symm
        simp [insertF, lookupF, h, h2]
      · simp [insertF, lookupF, h, hk, ih]

theorem mergeF_nil (dst : FieldMap) : mergeF dst [] = dst := rfl

theorem mergeF_cons (dst : FieldMap) (k : String) (v : GoValue) (src : FieldMap) :
    mergeF dst ((k, v) :: src) = mergeF (insertF dst k v) src := rfl

/-- Lookup in a merged map: the last binding of the merged-in map wins,
otherwise the base map answers. -/
theorem lookupF_mergeF (src : FieldMap) (dst : FieldMap) (k : String) :
    lookupF k (mergeF dst src) =
      match lookupLastF k src with
      | some v => some v
      | none => lookupF k dst := by
  induction src generalizing dst with
  | nil => simp [mergeF, lookupLastF]
  | cons p rest ih =>
    obtain ⟨pk, pv⟩ := p
    rw [mergeF_cons, ih]
    cases h : lookupLastF k rest with
    | some w => simp [lookupLastF, h]
    | none =>
      by_cases hpk : pk = k <;> simp [lookupLastF, h, lookupF_insertF, hpk]

/-- A map whose keys all avoid `k` has no last binding for `k`. -/
theorem lookupLastF_eq_none (src : FieldMap) (k : String)
    (h : ∀ p ∈ src, p.1 ≠ k) : lookupLastF k src = none := by
  induction src with
  | nil => rfl
  | cons p rest ih =>
    obtain ⟨pk, pv⟩ := p
    have hpk : pk ≠ k := h (pk, pv) (List.mem_cons_self _ _)
    have := ih (fun q hq => h q (List.mem_cons_of_mem _ hq))
    simp [lookupLastF, this, hpk]

theorem orO_none {α : Type} (a : Option α) : orO a none = a := by
  cases a <;> rfl

/-- find? distributes over append as a left-biased choice. -/
theorem find?_appendO {α : Type} (p : α → Bool) (xs ys : List α) :
    (xs ++ ys).find? p = orO (xs.find? p) (ys.find? p) := by
  induction xs with
  | nil => simp [orO]
  | cons a xs ih =>
    by_cases h : p a = true
    · simp [List.find?, h, orO]
    · simp only [List.cons_append, List.find?]
      rw [Bool.not_eq_true] at h
      simp [h, ih]

/-- The accumulator loop of `Last` keeps the last match: it equals a
first-match search over the reversed chain, falling back to the initial
accumulator. -/
theorem lastFound_foldl (t : ElemTy) (l : List GoError) (acc : Option GoError) :
    l.foldl (fun found e => if assignable e t then some e else found) acc =
      orO (l.reverse.find? (fun e => assignable e t)) acc := by
  induction l generalizing acc with
  | nil => simp [orO]
  | cons a l ih =>
    simp only [List.foldl, List.reverse_cons]
    rw [ih, find?_appendO]
    cases hX : l.reverse.find? (fun e => assignable e t) <;>
      by_cases hpa : assignable a t = true <;>
      simp [orO, List.find?, hpa]

/-- `lastFound` is exactly a first-match search over the reversed chain:
the matching node closest to the root cause. -/
theorem lastFound_eq_reverse_find (err : Option GoError) (t : ElemTy) :
    lastFound err t = (chainO err).reverse.find? (fun e => assignable e t) := by
  unfold lastFound
  rw [lastFound_foldl, orO_none]

/-- C2: `Last` walks the entire chain and selects the matching node
closest to the root cause (the first match of the reversed chain),
returning `.ok (some node)` — target written, true returned — while `As`
selects the matching node closest to the head; on the scenario chain
whose stack-bearing nodes sit at positions 1 and 3 from the head, `Last`
yields the position-3 node and `As` the position-1 node. -/
theorem c2_last_vs_as_traversal :
    (∀ (err : Option GoError) (t : ElemTy), elemIsInterface t = true →
      Last err (some ⟨true, false, t⟩) =
        .ok ((chainO err).reverse.find? (fun e => assignable e t)) ∧
      As err t = (chainO err).find? (fun e => assignable e t)) ∧
    chainO (some scenarioPos1) = [scenarioPos1, scenarioPos2, scenarioPos3, scenarioLeaf] ∧
    GoError.hasStackTraceMethod scenarioPos1 = true ∧
    GoError.hasStackTraceMethod scenarioPos2 = false ∧
    GoError.hasStackTraceMethod scenarioPos3 = true ∧
    GoError.hasStackTraceMethod scenarioLeaf = false ∧
    Last (some scenarioPos1) (some ⟨true, false, .ifaceHasStackTrace⟩) =
      .ok (some scenarioPos3) ∧
    As (some scenarioPos1) .ifaceHasStackTrace = some scenarioPos1 := by
  refine ⟨fun err t ht => ⟨?_, rfl⟩, rfl, rfl, rfl, rfl, rfl, ?_, rfl⟩
  · simp [Last, ht, lastFound_eq_reverse_find]
  · rfl

/-- C2 witness: the traversal theorem applied to the scenario chain with
the `callstack.HasStackTrace` interface target. -/
theorem c2_witness :
    elemIsInterface .ifaceHasStackTrace = true ∧
    Last (some scenarioPos1) (some ⟨true, false, .ifaceHasStackTrace⟩) =
      .ok ((chainO (some scenarioPos1)).reverse.find?
        (fun e => assignable e .ifaceHasStackTrace)) :=
  ⟨rfl, (c2_last_vs_as_traversal.1 (some scenarioPos1) .ifaceHasStackTrace rfl).1⟩

/-- C8: `Last` panics (modelled as `Except.error`) exactly when the
target is nil, is not a non-nil pointer, or points to a type that is
neither an interface type nor an implementor of `error`; for every valid
target it returns `.ok` with the found result. -/
theorem c8_last_panic_condition (err : Option GoError) (target : Option TargetVal) :
    (∃ msg, Last err target = .error msg) ↔
      (target = none ∨
        ∃ t, target = some t ∧
          (t.kindIsPtr = false ∨ t.isNilPtr = true ∨
            (elemIsInterface t.elem = false ∧ elemImplementsError t.elem = false))) := by
  cases target with
  | none => simp [Last]
  | some t =>
    obtain ⟨kp, np, el⟩ := t
    cases kp <;> cases np <;>
      by_cases h1 : elemIsInterface el = true <;>
      by_cases h2 : elemImplementsError el = true <;>
      simp_all [Last]

/-- C9: a node built by Wrap/Wrapf or a WithFields constructor returns
the wrapped error's stack trace whenever the immediate cause has a
`StackTrace()` method, and only otherwise its own construction-time
snapshot, as witnessed by a stack-bearing and a stack-less cause. -/
theorem c9_stacktrace_prefers_wrapped (m : String) (c : GoError)
    (st : CallStack) (f : FieldMap) :
    GoError.stackTraceOf (.wrappedError m c st) =
      (if c.hasStackTraceMethod then c.stackTraceOf else st) ∧
    GoError.stackTraceOf (.withFields f m c st) =
      (if c.hasStackTraceMethod then c.stackTraceOf else st) ∧
    GoError.stackTraceOf (.wrappedError "x" (.withStack scenarioLeaf stackB) stackA) = stackB ∧
    GoError.stackTraceOf (.wrappedError "x" scenarioLeaf stackA) = stackA ∧
    stackB ≠ stackA :=
  ⟨rfl, rfl, rfl, rfl, by decide⟩

/-- C10: `withStack.Fields` is a pure pass-through decided by a direct
type assertion on the immediate cause only: the cause's `Fields()` value
when the cause's concrete type has the method, nil otherwise — even when
a deeper chain node does carry fields (no chain walk). -/
theorem c10_withstack_fields_passthrough (c : GoError) (st : CallStack) :
    (goFieldsOf (.withStack c st) = if c.hasFieldsMethod then goFieldsOf c else none) ∧
    goFieldsOf (.withStack (.fmtWrapped "p: " fieldsInner) stackB) = none ∧
    chainFields (.fmtWrapped "p: " fieldsInner) = some [("a", .vInt 1)] ∧
    goFieldsOf (.withStack fieldsInner stackB) = some [("a", .vInt 1)] :=
  ⟨rfl, rfl, rfl, rfl⟩

/-- C6 counterexample: the claim asserts the %+v rendering of
`Wrap(WithStack(leaf), "ctx")` contains a stack frame reference; in the
code `wrappedError.Format` writes `e.Error()` for every verb, so the
verbose rendering is exactly "ctx: boom" — it contains the leaf's text
but no reference to the (nonempty) captured frame, coinciding with the
short rendering. -/
theorem c6_counterexample :
    formatGo .verbosePlus c6err = "ctx: boom" ∧
    containsSubB "boom" (formatGo .verbosePlus c6err) = true ∧
    containsSubB c6frame.file (formatGo .verbosePlus c6err) = false ∧
    containsSubB c6frame.func (formatGo .verbosePlus c6err) = false ∧
    containsSubB (c6frame.file ++ ":" ++ toString c6frame.lineNo)
      (stackVerbose [c6frame]) = true ∧
    formatGo .verbosePlus c6err = formatGo .short c6err := by
  refine ⟨rfl, rfl, rfl, rfl, rfl, rfl⟩

/-- C6 amended: the %+v rendering of `Wrap(WithStack(leaf), msg)` equals
its %s rendering — the message chain with the leaf's text and no frame
references — because `wrappedError.Format` prints `Error()` for every
verb; frames appear only when a `withStack` node is the outermost value
being formatted. -/
theorem c6_amended (leaf : GoError) (st st2 : CallStack) (m : String) :
    formatGo .verbosePlus (.wrappedError m (.withStack leaf st) st2) =
      GoError.errorText (.wrappedError m (.withStack leaf st) st2) ∧
    GoError.errorText (.wrappedError m (.withStack leaf st) st2) =
      (if m = "" then leaf.errorText else m ++ ": " ++ leaf.errorText) ∧
    formatGo .short (.wrappedError m (.withStack leaf st) st2) =
      GoError.errorText (.wrappedError m (.withStack leaf st) st2) ∧
    formatGo .verbosePlus (.withStack leaf st) =
      formatGo .verbosePlus leaf ++ stackVerbose st :=
  ⟨rfl, rfl, rfl, rfl⟩

/-- C4: `withFields.Fields` merges the node's own fields with the fields
exposed by its cause chain with downstream (closer to the cause) entries
overriding upstream ones: any key bound in the chain's field set reads
back its downstream value, keys absent downstream read back the own
binding, and wrapping {a: 1} with a node carrying {a: 2} resolves a to 1. -/
theorem c4_fields_merge_downstream_wins :
    (∀ (f : FieldMap) (m : String) (c : GoError) (st : CallStack)
        (k : String) (v : GoValue),
      lookupLastF k ((chainFields c).getD []) = some v →
      lookupF k ((goFieldsOf (.withFields f m c st)).getD []) = some v) ∧
    (∀ (f : FieldMap) (m : String) (c : GoError) (st : CallStack) (k : String),
      lookupLastF k ((chainFields c).getD []) = none →
      lookupF k ((goFieldsOf (.withFields f m c st)).getD []) = lookupF k f) ∧
    goFieldsOf fieldsOuter = some [("a", .vInt 1)] ∧
    lookupF "a" ((goFieldsOf fieldsOuter).getD []) = some (.vInt 1) := by
  refine ⟨?_, ?_, rfl, rfl⟩
  · intro f m c st k v h
    show lookupF k (mergeF f ((chainFields c).getD [])) = some v
    rw [lookupF_mergeF, h]
  · intro f m c st k h
    show lookupF k (mergeF f ((chainFields c).getD [])) = lookupF k f
    rw [lookupF_mergeF, h]

/-- C4 witness: the downstream-override theorem applied to the
{a: 2}-wraps-{a: 1} chain. -/
theorem c4_witness :
    lookupLastF "a" ((chainFields fieldsInner).getD []) = some (.vInt 1) ∧
    lookupF "a" ((goFieldsOf (.withFields [("a", .vInt 2)] "m2" fieldsInner stackB)).getD [])
      = some (.vInt 1) :=
  ⟨rfl, c4_fields_merge_downstream_wins.1 [("a", .vInt 2)] "m2" fieldsInner stackB
    "a" (.vInt 1) rfl⟩

/-- ToLogrus builds exactly the same map as ToMap. -/
theorem toLogrus_eq_toMap (err : GoError) : ToLogrus err = ToMap err := rfl

/-- C3 counterexample: on the depth-2 chain
`Wrap(Wrap(New("bottom"), "mid"), "top")` the excType entry of
ToMap/ToLogrus is the type of the single-step unwrap
("*errors.wrappedError"), not the type of the innermost leaf
("*errors.errorString") as the claim states. -/
theorem c3_counterexample :
    lookupF "excType" (ToMap c3chain) = some (.vStr "*errors.wrappedError") ∧
    lookupF "excType" (ToLogrus c3chain) = some (.vStr "*errors.wrappedError") ∧
    GoError.typeName (GoError.leafOf c3chain) = "*errors.errorString" ∧
    lookupF "excType" (ToMap c3chain) ≠
      some (.vStr (GoError.typeName (GoError.leafOf c3chain))) ∧
    lookupF "excValue" (ToMap c3chain) = some (.vStr "top: mid: bottom") := by
  refine ⟨rfl, rfl, rfl, by decide, rfl⟩

/-- C3 amended: for every error whose chain field set avoids the exc*
keys, ToMap and ToLogrus always contain excValue = the full Error() text
and excType = the %T name of the single-step Unwrap of the error (its
immediate cause), not of the innermost leaf. -/
theorem c3_tomap_excvalue_exctype (err : GoError)
    (hf : ∀ p ∈ (chainFields err).getD [], p.1 ≠ "excValue" ∧ p.1 ≠ "excType") :
    lookupF "excValue" (ToMap err) = some (.vStr err.errorText) ∧
    lookupF "excType" (ToMap err) = some (.vStr (GoError.typeNameOpt err.unwrap)) ∧
    lookupF "excValue" (ToLogrus err) = some (.vStr err.errorText) ∧
    lookupF "excType" (ToLogrus err) = some (.vStr (GoError.typeNameOpt err.unwrap)) := by
  have hv : lookupLastF "excValue" ((chainFields err).getD []) = none :=
    lookupLastF_eq_none _ _ (fun p hp => (hf p hp).1)
  have ht : lookupLastF "excType" ((chainFields err).getD []) = none :=
    lookupLastF_eq_none _ _ (fun p hp => (hf p hp).2)
  have hval : lookupF "excValue" (ToMap err) = some (.vStr err.errorText) := by
    show lookupF "excValue" (mergeF _ ((chainFields err).getD [])) = _
    rw [lookupF_mergeF, hv]
    cases hL : lastFound (some err) .ifaceHasStackTrace with
    | none => simp only [ToMap, hL]; rfl
    | some n =>
      simp only [ToMap, hL]
      rw [lookupF_insertF, if_neg (by decide), lookupF_insertF, if_neg (by decide),
        lookupF_insertF, if_neg (by decide)]
      rfl
  have htyp : lookupF "excType" (ToMap err) = some (.vStr (GoError.typeNameOpt err.unwrap)) := by
    show lookupF "excType" (mergeF _ ((chainFields err).getD [])) = _
    rw [lookupF_mergeF, ht]
    cases hL : lastFound (some err) .ifaceHasStackTrace with
    | none => simp only [ToMap, hL]; rfl
    | some n =>
      simp only [ToMap, hL]
      rw [lookupF_insertF, if_neg (by decide), lookupF_insertF, if_neg (by decide),
        lookupF_insertF, if_neg (by decide)]
      rfl
  exact ⟨hval, htyp, (toLogrus_eq_toMap err) ▸ hval, (toLogrus_eq_toMap err) ▸ htyp⟩

/-- C3 witness: the amended ToMap theorem applied to the field-bearing
chain whose field keys avoid the exc* prefix. -/
theorem c3_witness :
    (∀ p ∈ (chainFields fieldsOuter).getD [], p.1 ≠ "excValue" ∧ p.1 ≠ "excType") ∧
    lookupF "excValue" (ToMap fieldsOuter) =
      some (.vStr (GoError.errorText fieldsOuter)) :=
  ⟨by decide, (c3_tomap_excvalue_exctype fieldsOuter (by decide)).1⟩

/-- Setting the appended slot of a store rewrites only that slot. -/
theorem set_append_length {α : Type} (σ : List α) (x y : α) :
    (σ ++ [x]).set σ.length y = σ ++ [y] := by
  induction σ with
  | nil => rfl
  | cons a σ ih => simp [List.set, ih]

/-- Dereferencing below the old length ignores an appended slot. -/
theorem readRef_append (σ : Store) (y : FieldMap) (r : Nat) (h : r < σ.length) :
    readRef (σ ++ [y]) r = readRef σ r := by
  unfold readRef
  induction σ generalizing r with
  | nil => exact absurd h (Nat.not_lt_zero r)
  | cons a σ ih =>
    cases r with
    | zero => rfl
    | succ r => exact ih r (Nat.lt_of_succ_lt_succ h)

/-- A chain whose map references all lie below the store's length
computes the same Fields() value after a fresh map is appended. -/
theorem rFieldsVal_append (σ : Store) (y : FieldMap) (e : RErr)
    (h : refsBelowB e σ.length = true) :
    rFieldsVal (σ ++ [y]) e = rFieldsVal σ e := by
  induction e with
  | rleaf m => rfl
  | rnode r m c ih =>
    rw [refsBelowB, Bool.and_eq_true, decide_eq_true_eq] at h
    simp [rFieldsVal, readRef_append σ y r h.1, ih h.2]

/-- C7 counterexample: `WithFields.Wrap` stores the caller-supplied map
without copying it, so mutating that map after construction changes the
node's observable Fields() output: with the caller's map {a: 1} at
reference 0, rewriting it to {a: 2} flips the node's Fields() result. -/
theorem c7_counterexample :
    rFieldsVal sigma0 nodeAlias = some [("a", .vInt 1)] ∧
    rFieldsVal (updateRef sigma0 0 [("a", .vInt 2)]) nodeAlias = some [("a", .vInt 2)] ∧
    rFieldsVal (updateRef sigma0 0 [("a", .vInt 2)]) nodeAlias ≠ rFieldsVal sigma0 nodeAlias := by
  refine ⟨rfl, rfl, by decide⟩

/-- C7 amended: the map returned by `Fields()` is freshly allocated, so
mutating the returned map never affects the chain: overwriting the
freshly allocated result slot leaves the node's Fields() value unchanged
(while the constructor itself aliases the caller's map, per the
counterexample). -/
theorem c7_fields_returns_fresh_copy (σ : Store) (e : RErr) (σ' : Store)
    (r : Nat) (m' : FieldMap)
    (halloc : rFieldsAlloc σ e = (σ', some r))
    (hrefs : refsBelowB e σ.length = true) :
    rFieldsVal (updateRef σ' r m') e = rFieldsVal σ e := by
  unfold rFieldsAlloc at halloc
  cases hv : rFieldsVal σ e with
  | none => rw [hv] at halloc; exact absurd halloc (by simp)
  | some mv =>
    rw [hv] at halloc
    have hσ : σ ++ [mv] = σ' := congrArg Prod.fst halloc
    have hr : σ.length = r := by
      have := congrArg Prod.snd halloc
      simpa using this
    subst hσ
    subst hr
    unfold updateRef
    rw [set_append_length, rFieldsVal_append σ m' e hrefs, hv]

/-- C7 witness: the freshness theorem applied to the concrete store —
mutating the slot returned by Fields() leaves the node's value {a: 1}. -/
theorem c7_witness :
    rFieldsAlloc sigma0 nodeAlias = (sigma0 ++ [[("a", .vInt 1)]], some 1) ∧
    refsBelowB nodeAlias sigma0.length = true ∧
    rFieldsVal (updateRef (sigma0 ++ [[("a", .vInt 1)]]) 1 [("zz", .vInt 9)]) nodeAlias =
      rFieldsVal sigma0 nodeAlias :=
  ⟨by decide, by decide,
    c7_fields_returns_fresh_copy sigma0 nodeAlias (sigma0 ++ [[("a", .vInt 1)]]) 1
      [("zz", .vInt 9)] (by decide) (by decide)⟩
